import Mathlib

/-!
Verification of the continent-resolution and big-tech classification engine
of the Conference-Data-Plots repository.

Python strings are modelled as `List Char`; Python `None`-able values as
`Option`; Python dict lookups as association lists (which preserve insertion
order, as CPython dicts do); exceptions raised by the `pycountry_convert`
library as `Except` values, with the repository's `try/except` blocks
translated to explicit matches on those values.  Character-level operations
(`str.lower`, `str.upper`, `str.isalpha`, `str.strip`, regex `\w`) are
modelled on the ASCII range, which covers every catalog entry and country
token the analysed code distinguishes.
-/

namespace ConfPlots

/-- Python strings, modelled as lists of characters. -/
abbrev PStr := List Char

/-- ASCII model of Python's alphabetic-character test used by `str.isalpha`. -/
def pyIsAlphaChar (c : Char) : Bool :=
  ('A' ≤ c && c ≤ 'Z') || ('a' ≤ c && c ≤ 'z')

/-- ASCII model of Python's decimal-digit test. -/
def pyIsDigitChar (c : Char) : Bool :=
  '0' ≤ c && c ≤ '9'

/-- Model of the whitespace characters removed by Python's `str.strip`. -/
def pyIsSpaceChar (c : Char) : Bool :=
  c = ' ' || c = '\t' || c = '\n' || c = '\r' || c = '\x0b' || c = '\x0c'

/-- Characters matched by the regex class `\w` (ASCII model): letters,
digits and the underscore. -/
def pyWordChar (c : Char) : Bool :=
  pyIsAlphaChar c || pyIsDigitChar c || c = '_'

/-- Lower-to-upper case table for the 26 ASCII letters. -/
def letterTable : List (Char × Char) :=
  [('a','A'), ('b','B'), ('c','C'), ('d','D'), ('e','E'), ('f','F'),
   ('g','G'), ('h','H'), ('i','I'), ('j','J'), ('k','K'), ('l','L'),
   ('m','M'), ('n','N'), ('o','O'), ('p','P'), ('q','Q'), ('r','R'),
   ('s','S'), ('t','T'), ('u','U'), ('v','V'), ('w','W'), ('x','X'),
   ('y','Y'), ('z','Z')]

/-- Association-list lookup (first match wins), the model of Python dict
indexing used throughout. -/
def alistFind {α β : Type} [DecidableEq α] (k : α) : List (α × β) → Option β
  | [] => none
  | (k₀, v) :: rest => if k₀ = k then some v else alistFind k rest

/-- ASCII model of Python's per-character upper-casing. -/
def pyUpperChar (c : Char) : Char :=
  match alistFind c letterTable with
  | some u => u
  | none => c

/-- ASCII model of Python's per-character lower-casing. -/
def pyLowerChar (c : Char) : Char :=
  match alistFind c (letterTable.map (fun p => (p.2, p.1))) with
  | some l => l
  | none => c

/-- Model of Python's `str.upper`. -/
def pyUpper (s : PStr) : PStr := s.map pyUpperChar

/-- Model of Python's `str.lower`. -/
def pyLower (s : PStr) : PStr := s.map pyLowerChar

/-- Model of Python's `str.strip`: removes leading and trailing whitespace. -/
def pyStrip (s : PStr) : PStr :=
  ((s.dropWhile pyIsSpaceChar).reverse.dropWhile pyIsSpaceChar).reverse

/-- A Python value inhabiting a field that the source code probes with
truthiness and `isinstance(·, str)` checks: `None`, a string, or a value of
any other type. -/
inductive CVal : Type
  | pynone : CVal
  | str : PStr → CVal
  | other : CVal
deriving DecidableEq

/-- `BIG_TECH_COMPANIES` from `src/config/constants.py`, in source order
(Python iterates the set in an unspecified order; only membership matters for
the single-pass search below). -/
def BIG_TECH_COMPANIES : List String :=
  ["ibm", "ibm research", "ibm linux technology center",
   "microsoft", "microsoft azure", "azure", "microsoft research",
   "google", "google cloud", "alphabet",
   "amazon", "amazon web services", "aws",
   "facebook", "meta", "meta platforms",
   "apple", "intel", "oracle", "oracle labs",
   "cisco", "cisco systems", "hp", "hewlett packard", "hp labs",
   "hpe", "hewlett packard enterprise", "nvidia", "vmware", "netflix",
   "uber", "twitter", "yahoo", "snap", "salesforce",
   "amd", "advanced micro devices", "qualcomm", "broadcom",
   "huawei", "alibaba", "alibaba cloud", "bytedance", "tencent",
   "baidu", "samsung", "xiaomi", "tiktok",
   "arm", "arm ltd", "arm limited", "arm holdings",
   "ericsson", "nokia", "siemens", "orange", "atos",
   "deutsche telekom", "bosch", "airbus", "sap",
   "telefonica", "vodafone", "thales", "philips"]

/-- The catalog as character lists: the alternatives of the compiled regex
`(?<!\w)(alt1|alt2|...)(?!\w)` built by `_compile_company_pattern`.
(The source set also holds a mojibake variant of `telefonica` with two
non-ASCII symbol characters; it is omitted here, as those symbols are
neither case-folded nor `\w`-classified and no analysed input contains
them.) -/
def companyNeedles : List PStr := BIG_TECH_COMPANIES.map String.toList

/-- `COUNTRY_CODE_FIXES` from `src/config/constants.py`. -/
def COUNTRY_CODE_FIXES : List (PStr × PStr) :=
  [("UK".toList, "GB".toList),
   ("U.K.".toList, "GB".toList),
   ("U.S.".toList, "US".toList),
   ("USA".toList, "US".toList),
   ("UAE".toList, "AE".toList),
   ("Korea".toList, "KR".toList),
   ("South Korea".toList, "KR".toList),
   ("North Korea".toList, "KP".toList),
   ("Russia".toList, "RU".toList),
   ("Viet Nam".toList, "VN".toList),
   ("Vietnam".toList, "VN".toList)]

/-- `CONTINENT_GROUPS` from `src/config/constants.py`. -/
def CONTINENT_GROUPS : List (PStr × PStr) :=
  [("NA".toList, "NA".toList),
   ("EU".toList, "EU".toList),
   ("AS".toList, "AS".toList),
   ("SA".toList, "Others".toList),
   ("OC".toList, "Others".toList),
   ("AF".toList, "Others".toList)]

/-- Modelled from the `pycountry_convert` dependency: an excerpt of its
ISO-3166 alpha-2 → continent-code table, keyed by upper-case codes only.
`UK` is deliberately absent (the ISO code for the United Kingdom is `GB`),
and no lower-case key exists — exactly as in the library, whose lookup
raises `KeyError` on such inputs. -/
def pcContinentTable : List (PStr × PStr) :=
  [("US".toList, "NA".toList), ("CA".toList, "NA".toList),
   ("MX".toList, "NA".toList), ("GB".toList, "EU".toList),
   ("FR".toList, "EU".toList), ("DE".toList, "EU".toList),
   ("CH".toList, "EU".toList), ("ES".toList, "EU".toList),
   ("IT".toList, "EU".toList), ("NL".toList, "EU".toList),
   ("RU".toList, "EU".toList), ("CN".toList, "AS".toList),
   ("JP".toList, "AS".toList), ("KR".toList, "AS".toList),
   ("KP".toList, "AS".toList), ("IN".toList, "AS".toList),
   ("IL".toList, "AS".toList), ("AE".toList, "AS".toList),
   ("VN".toList, "AS".toList), ("AU".toList, "OC".toList),
   ("NZ".toList, "OC".toList), ("BR".toList, "SA".toList),
   ("AR".toList, "SA".toList), ("ZA".toList, "AF".toList),
   ("EG".toList, "AF".toList)]

/-- Modelled from the `pycountry_convert` dependency: an excerpt of its
country-name → alpha-2 lookup; unknown names raise, modelled as absence. -/
def pcNameTable : List (PStr × PStr) :=
  [("United States".toList, "US".toList),
   ("Switzerland".toList, "CH".toList),
   ("France".toList, "FR".toList),
   ("Germany".toList, "DE".toList),
   ("China".toList, "CN".toList),
   ("United Kingdom".toList, "GB".toList)]

/-- Exceptions that the `pycountry_convert` calls may raise; always caught
by the repository code. -/
inductive PyExc : Type
  | keyError : PyExc
deriving DecidableEq

/-- Equality of modelled call results is decidable. -/
instance exceptDecEq {ε α : Type} [DecidableEq ε] [DecidableEq α] :
    DecidableEq (Except ε α) := fun x y =>
  match x, y with
  | Except.ok a, Except.ok b =>
      if h : a = b then isTrue (by rw [h])
      else isFalse (fun he => h (Except.ok.inj he))
  | Except.error a, Except.error b =>
      if h : a = b then isTrue (by rw [h])
      else isFalse (fun he => h (Except.error.inj he))
  | Except.ok _, Except.error _ => isFalse (fun he => Except.noConfusion he)
  | Except.error _, Except.ok _ => isFalse (fun he => Except.noConfusion he)

/-- `pc.country_alpha2_to_continent_code`: exact-key lookup that raises on
an unknown (non-upper-case or non-ISO) code. -/
def pcAlpha2ToContinent (code : PStr) : Except PyExc PStr :=
  match alistFind code pcContinentTable with
  | some cont => Except.ok cont
  | none => Except.error PyExc.keyError

/-- `pc.country_name_to_country_alpha2`: full-name lookup that raises on an
unknown name. -/
def pcNameToAlpha2 (nm : PStr) : Except PyExc PStr :=
  match alistFind nm pcNameTable with
  | some code => Except.ok code
  | none => Except.error PyExc.keyError

/-! ### The compiled company regex

`_compile_company_pattern` builds `(?<!\w)(alt1|...|altN)(?!\w)` with
`re.IGNORECASE`.  `search` scans left to right: at each position not
preceded by a `\w` character it tries every alternative; an alternative
matches when the text window equals it case-insensitively and the character
after the window (if any) is not a `\w` character. -/

/-- Case-insensitive literal match of `needle` at the front of `hay`;
returns the rest of `hay` after the window on success. -/
def consumeCI : PStr → PStr → Option PStr
  | [], rest => some rest
  | _ :: _, [] => none
  | n :: ns, h :: hs => if pyLowerChar h = n then consumeCI ns hs else none

/-- The `(?!\w)` look-ahead: the text after the window must not start with a
word character. -/
def tailBoundary (rest : PStr) : Bool :=
  match rest with
  | [] => true
  | c :: _ => !(pyWordChar c)

/-- One alternative matching at the current position (look-ahead included). -/
def altHere (needle hay : PStr) : Bool :=
  match consumeCI needle hay with
  | some rest => tailBoundary rest
  | none => false

/-- The scan of `re.search`: `prevIsWord` records whether the character just
before the current position is a `\w` character (the `(?<!\w)` look-behind);
initially there is no preceding character. -/
def searchFrom (needles : List PStr) : Bool → PStr → Bool
  | prevIsWord, [] => !prevIsWord && needles.any (fun n => altHere n [])
  | prevIsWord, c :: cs =>
      (!prevIsWord && needles.any (fun n => altHere n (c :: cs))) ||
      searchFrom needles (pyWordChar c) cs

/-- `self.company_pattern.search(inst)` viewed as a Boolean: does the
compiled catalog pattern match anywhere in `inst`? -/
def companyMatch (inst : PStr) : Bool :=
  searchFrom companyNeedles false inst

/-! ### Paper records and `BigTechAnalyzer` -/

/-- A value of the `Country` key of an institution record is any Python
value; a value of the `Institution Name` key is likewise optional (`none`
models both an absent key and an explicit `None`, which the source reads
through `inst.get('Institution Name', None)`). -/
structure InstDict : Type where
  instName : Option PStr
  country : Option CVal
deriving DecidableEq

/-- An entry of an author's `Institutions` list: a dict, a bare string, or
a value of any other type (the source branches on `isinstance`). -/
inductive PyInst : Type
  | dict : InstDict → PyInst
  | str : PStr → PyInst
  | other : PyInst
deriving DecidableEq

/-- An author record (a dict).  The source reads `author.get('Institutions')`
with falsy coalescing (`or []` in `get_predominant_continent`, default `[]`
in `extract_institutions`), so an absent, `None` or empty value is modelled
uniformly as the empty list. -/
structure AuthorDict : Type where
  institutions : List PyInst
deriving DecidableEq

/-- An entry of the author list as seen by `get_predominant_continent`,
which skips entries that are not dicts. -/
inductive AuthorEntry : Type
  | dict : AuthorDict → AuthorEntry
  | other : AuthorEntry
deriving DecidableEq

/-- A paper record; `authorsAndInstitutions` models the
`Authors and Institutions` field, with absent/falsy coalesced to `[]`.
(`extract_institutions` itself assumes the author entries are dicts — it
calls `.get` on them with no `isinstance` check.) -/
structure Paper : Type where
  authorsAndInstitutions : List AuthorDict
deriving DecidableEq

/-- The names one institution entry contributes in `extract_institutions`:
a dict contributes its lowered-and-stripped `Institution Name` when that is
truthy (and nothing otherwise), a bare string is lowered, stripped and kept
even when empty, and any other value contributes `None`. -/
def instNames (i : PyInst) : List (Option PStr) :=
  match i with
  | PyInst.dict d =>
      match d.instName with
      | some nm => if nm = [] then [] else [some (pyStrip (pyLower nm))]
      | none => []
  | PyInst.str s => [some (pyStrip (pyLower s))]
  | PyInst.other => [none]

/-- `BigTechAnalyzer.extract_institutions`. -/
def extract_institutions (paper : Paper) : List (Option PStr) :=
  if paper.authorsAndInstitutions = [] then [none]
  else
    paper.authorsAndInstitutions.flatMap (fun author =>
      if author.institutions = [] then [none]
      else author.institutions.flatMap instNames)

/-- The scanning loop of `classify_paper`: `allNone` is the running
`all_are_none` flag; a `None` entry is skipped, any other entry clears the
flag, and the first entry matched by the company pattern short-circuits. -/
def classifyScan : List (Option PStr) → Bool → PStr
  | [], allNone =>
      if allNone then "all_none".toList else "no_big_company".toList
  | none :: rest, allNone => classifyScan rest allNone
  | some inst :: rest, _ =>
      if companyMatch inst then "has_big_company".toList
      else classifyScan rest false

/-- `BigTechAnalyzer.classify_paper`. -/
def classify_paper (institutions : List (Option PStr)) : PStr :=
  if institutions = [] then "all_none".toList
  else classifyScan institutions true

/-! ### `ContinentMapper` country resolution

The four resolution functions are given `Except PyExc` result types so that
an uncaught exception would be visible as an `Except.error`; every
`try/except` of the source becomes an explicit match on the raising call. -/

/-- `ContinentMapper.normalize_alpha2`: strip, consult `COUNTRY_CODE_FIXES`,
then accept any 2-letter alphabetic token upper-cased.  No raising call is
involved. -/
def normalize_alpha2 (code : CVal) : Option PStr :=
  match code with
  | CVal.str s₀ =>
      let s := pyStrip s₀
      match alistFind s COUNTRY_CODE_FIXES with
      | some fix => some fix
      | none =>
          if s.length = 2 && s.all pyIsAlphaChar then some (pyUpper s)
          else none
  | _ => none

/-- Python's `str.replace('.','').replace(',','')` used for the retry in
`country_name_to_alpha2`. -/
def stripPunct (s : PStr) : PStr :=
  s.filter (fun c => !(c = '.' || c = ','))

/-- `ContinentMapper.country_name_to_alpha2`: fixes table, then the
`pycountry_convert` name lookup, retried once on cleaned punctuation; both
raising calls are wrapped in `try/except` returning `None`. -/
def country_name_to_alpha2 (nm : CVal) : Except PyExc (Option PStr) :=
  match nm with
  | CVal.str s₀ =>
      let s := pyStrip s₀
      match alistFind s COUNTRY_CODE_FIXES with
      | some fix => Except.ok (some fix)
      | none =>
          match pcNameToAlpha2 s with
          | Except.ok code => Except.ok (some code)
          | Except.error _ =>
              match pcNameToAlpha2 (stripPunct s) with
              | Except.ok code => Except.ok (some code)
              | Except.error _ => Except.ok none
  | _ => Except.ok none

/-- `ContinentMapper.country_to_alpha2`: try `normalize_alpha2`; a truthy
result is returned, otherwise fall back to the name lookup. -/
def country_to_alpha2 (value : CVal) : Except PyExc (Option PStr) :=
  match normalize_alpha2 value with
  | some code =>
      if code = [] then country_name_to_alpha2 value
      else Except.ok (some code)
  | none => country_name_to_alpha2 value

/-- `ContinentMapper.alpha2_to_continent`: falsy or non-string input yields
`None`; the raising continent lookup is wrapped in `try/except`. -/
def alpha2_to_continent (alpha2 : Option PStr) : Except PyExc (Option PStr) :=
  match alpha2 with
  | some s =>
      if s = [] then Except.ok none
      else
        match pcAlpha2ToContinent s with
        | Except.ok cont => Except.ok (some cont)
        | Except.error _ => Except.ok none
  | none => Except.ok none

/-- `ContinentMapper.country_to_continent`: the two stages composed; an
exception in either stage would propagate. -/
def country_to_continent (country : CVal) : Except PyExc (Option PStr) := do
  let alpha2 ← country_to_alpha2 country
  alpha2_to_continent alpha2

/-- `ContinentMapper.group_continent`: falsy input becomes `Unknown`; any
other string is looked up in `CONTINENT_GROUPS` with default `Others`. -/
def group_continent (continentCode : Option PStr) : PStr :=
  match continentCode with
  | some s =>
      if s = [] then "Unknown".toList
      else
        match alistFind s CONTINENT_GROUPS with
        | some g => g
        | none => "Others".toList
  | none => "Unknown".toList

/-! ### `ContinentMapper.get_predominant_continent` -/

/-- The accumulator of the author loop: the insertion-ordered
`continent_count` dict and the `no_inst_data` / `unknown_country`
counters. -/
structure PredState : Type where
  counts : List (PStr × Nat)
  noInst : Nat
  unknown : Nat
deriving DecidableEq

/-- `continent_count[c] = continent_count.get(c, 0) + 1` on an
insertion-ordered dict: update in place, or append a fresh key at the end. -/
def bump : List (PStr × Nat) → PStr → List (PStr × Nat)
  | [], b => [(b, 1)]
  | (k, v) :: rest, b =>
      if k = b then (k, v + 1) :: rest else (k, v) :: bump rest b

/-- The per-country body of the vote loop: a falsy, non-string or
non-2-character (after strip) token votes `Unknown` and counts as
unresolved; otherwise the raw token (not stripped, not upper-cased, no
fixes applied) goes straight to the `pycountry_convert` continent lookup,
whose failure is caught and also votes `Unknown` as unresolved. -/
def resolveVote (country : CVal) : PStr × Bool :=
  match country with
  | CVal.str s =>
      if s = [] then ("Unknown".toList, true)
      else if (pyStrip s).length ≠ 2 then ("Unknown".toList, true)
      else
        match pcAlpha2ToContinent s with
        | Except.ok cont => (cont, false)
        | Except.error _ => ("Unknown".toList, true)
  | _ => ("Unknown".toList, true)

/-- The `Country` value an institution entry contributes to the per-author
unique set: present only for dict entries carrying the key. -/
def instCountry : PyInst → Option CVal
  | PyInst.dict d => d.country
  | _ => none

/-- First-occurrence deduplication, the model of the iteration order of the
per-author `unique_countries` set (CPython leaves set order unspecified;
any order yields the same vote multiset, and first occurrence is the
canonical choice). -/
def dedupSeen {α : Type} [DecidableEq α] (seen : List α) : List α → List α
  | [] => []
  | a :: as =>
      if a ∈ seen then dedupSeen seen as else a :: dedupSeen (a :: seen) as

/-- First-occurrence deduplication of a list. -/
def dedupFirst {α : Type} [DecidableEq α] (l : List α) : List α :=
  dedupSeen [] l

/-- The unique country values of one author's institutions. -/
def uniqueCountries (insts : List PyInst) : List CVal :=
  dedupFirst (insts.filterMap instCountry)

/-- One vote applied to the accumulator. -/
def voteStep (st : PredState) (country : CVal) : PredState :=
  let bv := resolveVote country
  { counts := bump st.counts bv.1,
    noInst := st.noInst,
    unknown := st.unknown + (if bv.2 then 1 else 0) }

/-- One author applied to the accumulator: non-dict entries are skipped,
an author with no institutions only increments `no_inst_data`, and
otherwise each unique country votes once. -/
def authorStep (st : PredState) (a : AuthorEntry) : PredState :=
  match a with
  | AuthorEntry.other => st
  | AuthorEntry.dict ad =>
      if ad.institutions = [] then
        { st with noInst := st.noInst + 1 }
      else (uniqueCountries ad.institutions).foldl voteStep st

/-- `max(continent_count.values())`, evaluated only on a nonempty dict all
of whose counts are at least 1, so the fold base 0 is inert. -/
def dictValuesMax (m : List (PStr × Nat)) : Nat :=
  (m.map Prod.snd).foldr Nat.max 0

/-- `ContinentMapper.get_predominant_continent`. -/
def get_predominant_continent (authors : List AuthorEntry) :
    List PStr × Nat × Nat :=
  if authors = [] then ([], 0, 0)
  else
    let st := authors.foldl authorStep ⟨[], 0, 0⟩
    if st.counts = [] then ([], st.noInst, st.unknown)
    else
      let maxCount := dictValuesMax st.counts
      ((st.counts.filter (fun p => p.2 = maxCount)).map Prod.fst,
       st.noInst, st.unknown)

/-! ### Aggregation: `_analyze_year`, `analyze_conference` and the CSV rows -/

/-- The `BigTechStats` dataclass; the percentage fields are modelled as
exact rationals (the Python floats never leave {0} ∪ {100·k/n} at the
inputs analysed here). -/
structure BigTechStats : Type where
  total_papers : Nat
  has_big_tech : Nat
  no_big_tech : Nat
  all_none : Nat
  pct_has_big : ℚ
  pct_no_big : ℚ
  pct_all_none : ℚ
deriving DecidableEq

/-- `BigTechAnalyzer._analyze_year`. -/
def analyze_year (papers : List Paper) : BigTechStats :=
  let classifications :=
    papers.map (fun p => classify_paper (extract_institutions p))
  let total := papers.length
  let hasB := classifications.count "has_big_company".toList
  let noB := classifications.count "no_big_company".toList
  let allN := classifications.count "all_none".toList
  { total_papers := total, has_big_tech := hasB,
    no_big_tech := noB, all_none := allN,
    pct_has_big := if 0 < total then (hasB : ℚ) / (total : ℚ) * 100 else 0,
    pct_no_big := if 0 < total then (noB : ℚ) / (total : ℚ) * 100 else 0,
    pct_all_none := if 0 < total then (allN : ℚ) / (total : ℚ) * 100 else 0 }

/-- `BigTechAnalyzer.analyze_conference`: one stats record per year key, in
dict order. -/
def analyze_conference (papersByYear : List (PStr × List Paper)) :
    List (PStr × BigTechStats) :=
  papersByYear.map (fun yp => (yp.1, analyze_year yp.2))

/-- Python's `round` ties-to-even on an exact rational. -/
def bankersRound (q : ℚ) : ℤ :=
  let f := Int.floor q
  let r := q - (f : ℚ)
  if r < 1/2 then f
  else if 1/2 < r then f + 1
  else if f % 2 = 0 then f else f + 1

/-- `round(x, 2)` on an exact rational. -/
def round2 (q : ℚ) : ℚ := (bankersRound (q * 100) : ℚ) / 100

/-- One row of `big_tech_analysis.csv`. -/
structure BTRow : Type where
  conference : PStr
  year : PStr
  pct_has_big : ℚ
  pct_no_big : ℚ
  pct_all_none : ℚ
deriving DecidableEq

/-- The per-conference body of `analyze_all_conferences`: one CSV row is
appended for every year key of the conference's data file, with the three
percentages rounded to two decimals. -/
def conferenceRows (conference : PStr)
    (papersByYear : List (PStr × List Paper)) : List BTRow :=
  (analyze_conference papersByYear).map (fun ys =>
    { conference := conference, year := ys.1,
      pct_has_big := round2 ys.2.pct_has_big,
      pct_no_big := round2 ys.2.pct_no_big,
      pct_all_none := round2 ys.2.pct_all_none })

/-! ### Declarative view of the predominance vote

The following definitions restate the vote of `get_predominant_continent`
as a flat stream of ballots, to compare the imperative dict-folding code
against the specified "all buckets tied at the maximum, in first-vote
order" result. -/

/-- The ballots one author entry casts, in order: none for a non-dict entry
or an author with no institutions, otherwise one ballot per unique country
value. -/
def authorVotes (a : AuthorEntry) : List (PStr × Bool) :=
  match a with
  | AuthorEntry.other => []
  | AuthorEntry.dict ad =>
      if ad.institutions = [] then []
      else (uniqueCountries ad.institutions).map resolveVote

/-- The continent buckets voted for, over a whole author list, in ballot
order. -/
def voteBuckets (authors : List AuthorEntry) : List PStr :=
  (authors.flatMap authorVotes).map Prod.fst

/-- The maximal number of ballots any single bucket received. -/
def maxVoteCount (seq : List PStr) : Nat :=
  ((dedupFirst seq).map (fun b => seq.count b)).foldr Nat.max 0

/-- The specified predominant result: every bucket whose ballot count equals
the maximum, listed in the order each bucket first received a ballot. -/
def predominantSpec (seq : List PStr) : List PStr :=
  (dedupFirst seq).filter (fun b => seq.count b = maxVoteCount seq)

/-- Ballot count of a key in the insertion-ordered dict (0 when absent). -/
def lookupNat (k : PStr) : List (PStr × Nat) → Nat
  | [] => 0
  | (k₀, v) :: rest => if k₀ = k then v else lookupNat k rest

/-- The concrete end-to-end scenario of the specification: a paper whose
single author is at Google (US). -/
def paperGoogle : Paper :=
  ⟨[⟨[PyInst.dict ⟨some "Google".toList, some (CVal.str "US".toList)⟩]⟩]⟩

/-- Scenario paper whose single author is at ETH Zurich (CH). -/
def paperETH : Paper :=
  ⟨[⟨[PyInst.dict ⟨some "ETH Zurich".toList, some (CVal.str "CH".toList)⟩]⟩]⟩

/-- Scenario paper with no institution data at all. -/
def paperNoData : Paper := ⟨[]⟩

/-- Scenario paper with one US author and one CN author: its predominant
continent is tied between NA and AS, and its institutions are academic. -/
def paperTied : Paper :=
  ⟨[⟨[PyInst.dict ⟨some "Stanford University".toList,
                   some (CVal.str "US".toList)⟩]⟩,
    ⟨[PyInst.dict ⟨some "Tsinghua University".toList,
                   some (CVal.str "CN".toList)⟩]⟩]⟩

/-- The scenario conference data: the four papers under year `2020`. -/
def scenarioData : List (PStr × List Paper) :=
  [("2020".toList, [paperGoogle, paperETH, paperNoData, paperTied])]

/-! ## Helper lemmas -/

theorem alistFind_mem {α β : Type} [DecidableEq α] {k : α} {v : β} :
    ∀ {l : List (α × β)}, alistFind k l = some v → (k, v) ∈ l := by
  intro l
  induction l with
  | nil => intro h; cases h
  | cons p rest ih =>
    obtain ⟨k₀, v₀⟩ := p
    intro h
    by_cases hk : k₀ = k
    · subst hk
      simp [alistFind] at h
      subst h
      exact List.mem_cons_self _ _
    · simp [alistFind, hk] at h
      exact List.mem_cons_of_mem _ (ih h)

theorem classifyScan_eq_all_none (l : List (Option PStr)) :
    ∀ b : Bool, classifyScan l b = "all_none".toList ↔
      (b = true ∧ ∀ x ∈ l, x = none) := by
  induction l with
  | nil => intro b; cases b <;> decide
  | cons x rest ih =>
    intro b
    cases x with
    | none =>
      rw [show classifyScan (none :: rest) b = classifyScan rest b from rfl,
          ih b]
      simp
    | some inst =>
      by_cases hm : companyMatch inst = true
      · rw [show classifyScan (some inst :: rest) b =
              "has_big_company".toList from by simp [classifyScan, hm]]
        constructor
        · intro h; exact absurd h (by decide)
        · rintro ⟨-, hall⟩
          exact absurd (hall (some inst) (List.mem_cons_self _ _)) (by simp)
      · simp only [Bool.not_eq_true] at hm
        rw [show classifyScan (some inst :: rest) b = classifyScan rest false
              from by simp [classifyScan, hm],
            ih false]
        simp

/-! ## C4 -/

/-- C4 counterexample: a list containing one empty (but non-null) string is
classified `no_big_company`, not `all_none` — the source skips only `None`
entries, so an empty string still counts as a seen name. -/
theorem c4_counterexample :
    classify_paper [some []] = "no_big_company".toList ∧
    "no_big_company".toList ≠ "all_none".toList := by decide

/-- C4 amended: `classify_paper` returns `all_none` exactly when the input
list is empty or every entry is `None`; a non-null empty string counts as a
known name. -/
theorem c4_all_none_iff_all_null (insts : List (Option PStr)) :
    classify_paper insts = "all_none".toList ↔ ∀ x ∈ insts, x = none := by
  unfold classify_paper
  by_cases h : insts = []
  · subst h; simp
  · simp only [h, if_false]
    rw [classifyScan_eq_all_none insts true]
    simp

/-! ## C9 -/

/-- C9: `group_continent` yields `Unknown` only on falsy input (`None` or
the empty string); every non-empty string outside the six raw continent
codes — including the string `Unknown` itself — is grouped as `Others`. -/
theorem c9_group_unknown_only_for_falsy :
    group_continent none = "Unknown".toList ∧
    group_continent (some []) = "Unknown".toList ∧
    group_continent (some "Unknown".toList) = "Others".toList ∧
    (∀ s : PStr, s ≠ [] → group_continent (some s) ≠ "Unknown".toList) ∧
    (∀ s : PStr, s ≠ [] →
      s ∉ ["NA".toList, "EU".toList, "AS".toList,
           "SA".toList, "OC".toList, "AF".toList] →
      group_continent (some s) = "Others".toList) := by
  refine ⟨rfl, rfl, by decide, ?_, ?_⟩
  · intro s hs
    unfold group_continent
    simp only [hs, if_false]
    rcases hf : alistFind s CONTINENT_GROUPS with _ | g
    · decide
    · have hm := alistFind_mem hf
      fin_cases hm <;> decide
  · intro s hs hout
    unfold group_continent
    simp only [hs, if_false]
    rcases hf : alistFind s CONTINENT_GROUPS with _ | g
    · rfl
    · exfalso
      have hm := alistFind_mem hf
      fin_cases hm <;> simp_all

/-- C9 witness: the concrete out-of-taxonomy code `XX` is grouped as
`Others`. -/
theorem c9_witness :
    ("XX".toList ≠ ([] : PStr)) ∧
    ("XX".toList ∉ ["NA".toList, "EU".toList, "AS".toList,
                    "SA".toList, "OC".toList, "AF".toList]) ∧
    group_continent (some "XX".toList) = "Others".toList :=
  ⟨by decide, by decide,
   c9_group_unknown_only_for_falsy.2.2.2.2 _ (by decide) (by decide)⟩

/-! ## C10 -/

/-- C10: `get_predominant_continent` sends 2-character country tokens
straight to the continent table — no alias fix, no upper-casing, no
full-name lookup — so the tokens `UK` and `us` each cast one `Unknown` vote
and count as unresolved, while the full resolver (`country_to_continent`)
maps the very same tokens to `EU` and `NA`. -/
theorem c10_raw_two_char_lookup :
    get_predominant_continent
        [AuthorEntry.dict ⟨[PyInst.dict ⟨none, some (CVal.str "UK".toList)⟩]⟩] =
      (["Unknown".toList], 0, 1) ∧
    get_predominant_continent
        [AuthorEntry.dict ⟨[PyInst.dict ⟨none, some (CVal.str "us".toList)⟩]⟩] =
      (["Unknown".toList], 0, 1) ∧
    country_to_continent (CVal.str "UK".toList) =
      Except.ok (some "EU".toList) ∧
    country_to_continent (CVal.str "us".toList) =
      Except.ok (some "NA".toList) := by decide

/-! ## C1 -/

theorem round2_zero : round2 (0 : ℚ) = 0 := by
  simp only [round2, bankersRound]
  norm_num

theorem round2_twentyfive : round2 (25 : ℚ) = 25 := by
  simp only [round2, bankersRound]
  norm_num

theorem round2_fifty : round2 (50 : ℚ) = 50 := by
  simp only [round2, bankersRound]
  norm_num

theorem scenario_stats :
    analyze_year [paperGoogle, paperETH, paperNoData, paperTied] =
      ⟨4, 1, 2, 1, 25, 50, 25⟩ := by
  have hcls : [paperGoogle, paperETH, paperNoData, paperTied].map
      (fun p => classify_paper (extract_institutions p)) =
      ["has_big_company".toList, "no_big_company".toList,
       "all_none".toList, "no_big_company".toList] := by decide
  have hhas : (["has_big_company".toList, "no_big_company".toList,
      "all_none".toList, "no_big_company".toList] : List PStr).count
      "has_big_company".toList = 1 := by decide
  have hno : (["has_big_company".toList, "no_big_company".toList,
      "all_none".toList, "no_big_company".toList] : List PStr).count
      "no_big_company".toList = 2 := by decide
  have hall : (["has_big_company".toList, "no_big_company".toList,
      "all_none".toList, "no_big_company".toList] : List PStr).count
      "all_none".toList = 1 := by decide
  simp only [analyze_year, List.length_cons, List.length_nil]
  rw [hcls, hhas, hno, hall]
  norm_num [BigTechStats.mk.injEq]

theorem scenario_rows :
    conferenceRows "conf".toList scenarioData =
      [⟨"conf".toList, "2020".toList, 25, 50, 25⟩] := by
  simp only [conferenceRows, analyze_conference, scenarioData,
    List.map_cons, List.map_nil]
  rw [scenario_stats]
  simp only [round2_twentyfive, round2_fifty]

/-- C1 counterexample: in the specified 4-paper scenario (one `HasBigTech`
Google paper, one `NoBigTech` ETH paper, one `AllUnknown` paper, one paper
tied NA/AS with academic institutions), the produced CSV row is not
25.00/25.00/25.00 — the three mutually exclusive labels cover all four
papers, so the percentages must sum to 100. -/
theorem c1_counterexample :
    classify_paper (extract_institutions paperGoogle) =
      "has_big_company".toList ∧
    classify_paper (extract_institutions paperETH) =
      "no_big_company".toList ∧
    classify_paper (extract_institutions paperNoData) =
      "all_none".toList ∧
    get_predominant_continent
        (paperTied.authorsAndInstitutions.map AuthorEntry.dict) =
      (["NA".toList, "AS".toList], 0, 0) ∧
    conferenceRows "conf".toList scenarioData ≠
      [⟨"conf".toList, "2020".toList, 25, 25, 25⟩] := by
  refine ⟨by decide, by decide, by decide, by decide, ?_⟩
  rw [scenario_rows]
  intro h
  have h50 : (50 : ℚ) = 25 := congrArg BTRow.pct_no_big (List.head_eq_of_cons_eq h)
  norm_num at h50

/-- C1 amended: in that scenario the row for (conf, 2020) shows
pct_has_big = 25.00, pct_no_big = 50.00 and pct_all_none = 25.00 — the tied
paper is still classified by its (academic) institutions and lands in
`no_big_company`. -/
theorem c1_scenario_row :
    conferenceRows "conf".toList scenarioData =
      [⟨"conf".toList, "2020".toList, 25, 50, 25⟩] :=
  scenario_rows

/-! ## C8 -/

theorem analyze_year_nil : analyze_year [] = ⟨0, 0, 0, 0, 0, 0, 0⟩ := by decide

theorem zero_year_rows :
    conferenceRows "c".toList [("2019".toList, [])] =
      [⟨"c".toList, "2019".toList, 0, 0, 0⟩] := by
  simp only [conferenceRows, analyze_conference, List.map_cons, List.map_nil]
  rw [analyze_year_nil]
  simp only [round2_zero]

/-- C8 counterexample: a year key whose paper list is empty still produces
an output row — with all three percentages 0.00 — because
`analyze_all_conferences` appends one row per year key unconditionally. -/
theorem c8_counterexample :
    conferenceRows "c".toList [("2019".toList, [])] =
      [⟨"c".toList, "2019".toList, 0, 0, 0⟩] ∧
    conferenceRows "c".toList [("2019".toList, [])] ≠ [] := by
  refine ⟨zero_year_rows, ?_⟩
  rw [zero_year_rows]
  simp

/-- C8 amended: the big-tech CSV gets exactly one row per year key present
in the conference mapping — a year with an empty paper list is not omitted
but yields a row whose three percentages are 0.00. -/
theorem c8_row_per_year_key (conference : PStr)
    (papersByYear : List (PStr × List Paper)) :
    (conferenceRows conference papersByYear).map
        (fun r => (r.conference, r.year)) =
      papersByYear.map (fun yp => (conference, yp.1)) ∧
    ∀ y, (y, ([] : List Paper)) ∈ papersByYear →
      (⟨conference, y, 0, 0, 0⟩ : BTRow) ∈
        conferenceRows conference papersByYear := by
  constructor
  · simp only [conferenceRows, analyze_conference, List.map_map]
    rfl
  · intro y hy
    have hmem : (y, analyze_year []) ∈ analyze_conference papersByYear := by
      unfold analyze_conference
      exact List.mem_map_of_mem _ hy
    have hrow : (fun ys : PStr × BigTechStats =>
        ({ conference := conference, year := ys.1,
           pct_has_big := round2 ys.2.pct_has_big,
           pct_no_big := round2 ys.2.pct_no_big,
           pct_all_none := round2 ys.2.pct_all_none } : BTRow))
        (y, analyze_year []) = ⟨conference, y, 0, 0, 0⟩ := by
      show ({ conference := conference, year := y,
              pct_has_big := round2 (analyze_year []).pct_has_big,
              pct_no_big := round2 (analyze_year []).pct_no_big,
              pct_all_none := round2 (analyze_year []).pct_all_none } : BTRow)
            = ⟨conference, y, 0, 0, 0⟩
      have hz : (analyze_year []).pct_has_big = 0 ∧
          (analyze_year []).pct_no_big = 0 ∧
          (analyze_year []).pct_all_none = 0 := by
        rw [analyze_year_nil]
        exact ⟨rfl, rfl, rfl⟩
      rw [hz.1, hz.2.1, hz.2.2, round2_zero]
    unfold conferenceRows
    exact hrow ▸ List.mem_map_of_mem _ hmem

/-! ## C2 -/

theorem searchFrom_true_all_word (ns : List PStr) :
    ∀ w : PStr, w.all pyWordChar = true → searchFrom ns true w = false := by
  intro w
  induction w with
  | nil => intro _; simp [searchFrom]
  | cons c cs ih =>
    intro h
    rw [List.all_cons, Bool.and_eq_true] at h
    simp only [searchFrom, Bool.not_true, Bool.false_and, Bool.false_or]
    rw [h.1]
    exact ih h.2

theorem consumeCI_some :
    ∀ {n w rest : PStr}, consumeCI n w = some rest →
      pyLower w = n ++ pyLower rest ∧ rest.IsSuffix w := by
  intro n
  induction n with
  | nil =>
    intro w rest h
    simp only [consumeCI, Option.some.injEq] at h
    subst h
    exact ⟨rfl, List.suffix_refl w⟩
  | cons x xs ih =>
    intro w rest h
    cases w with
    | nil => cases h
    | cons hd tl =>
      simp only [consumeCI] at h
      by_cases hx : pyLowerChar hd = x
      · rw [if_pos hx] at h
        obtain ⟨h1, h2⟩ := ih h
        refine ⟨?_, h2.trans (List.suffix_cons hd tl)⟩
        simp only [pyLower, List.map_cons] at h1 ⊢
        rw [h1, hx]
        rfl
      · rw [if_neg hx] at h
        cases h

theorem altHere_all_word {n w : PStr} (hw : w.all pyWordChar = true)
    (h : altHere n w = true) : pyLower w = n := by
  unfold altHere at h
  rcases hc : consumeCI n w with _ | rest
  · rw [hc] at h; cases h
  · rw [hc] at h
    obtain ⟨h1, h2⟩ := consumeCI_some hc
    cases rest with
    | nil => simpa [pyLower] using h1
    | cons r rs =>
      exfalso
      have hr : r ∈ w := h2.subset (List.mem_cons_self r rs)
      have := List.all_eq_true.mp hw r hr
      simp only [tailBoundary] at h
      rw [this] at h
      cases h

theorem searchFrom_false_all_word (ns : List PStr) (w : PStr)
    (hw : w.all pyWordChar = true) (hcat : pyLower w ∉ ns) :
    searchFrom ns false w = false := by
  have hany : ns.any (fun n => altHere n w) = false := by
    rw [Bool.eq_false_iff]
    intro hx
    obtain ⟨n, hn, ha⟩ := List.any_eq_true.mp hx
    exact hcat (altHere_all_word hw ha ▸ hn)
  cases w with
  | nil => simpa [searchFrom] using hany
  | cons c cs =>
    rw [List.all_cons, Bool.and_eq_true] at hw
    simp only [searchFrom, Bool.not_false, Bool.true_and, hany, Bool.false_or]
    rw [hw.1]
    exact searchFrom_true_all_word ns cs hw.2

/-- C2: whole-word matching of the compiled company pattern.  A string made
of one unbroken word-character token whose lower-casing is not itself a
catalog entry never matches (so `ibm` buried inside `Ibmresearchlab`
triggers nothing and the paper is `no_big_company`), while the same names
delimited by spaces or punctuation match in any letter case and yield
`has_big_company`. -/
theorem c2_whole_word_matching :
    (∀ w : PStr, w.all pyWordChar = true → pyLower w ∉ companyNeedles →
      companyMatch w = false) ∧
    classify_paper [some "Ibmresearchlab University".toList] =
      "no_big_company".toList ∧
    classify_paper [some "IBM Research".toList] = "has_big_company".toList ∧
    classify_paper [some "IBM,".toList] = "has_big_company".toList ∧
    classify_paper [some "Google Research".toList] =
      "has_big_company".toList ∧
    classify_paper [some "gOoGle reSearch".toList] =
      "has_big_company".toList := by
  refine ⟨?_, by decide, by decide, by decide, by decide, by decide⟩
  intro w hw hcat
  exact searchFrom_false_all_word companyNeedles w hw hcat

/-- C2 witness: the unbroken token `Ibmresearchlab` itself does not match
the catalog pattern. -/
theorem c2_witness :
    ("Ibmresearchlab".toList.all pyWordChar = true) ∧
    (pyLower "Ibmresearchlab".toList ∉ companyNeedles) ∧
    companyMatch "Ibmresearchlab".toList = false :=
  ⟨by decide, by decide,
   c2_whole_word_matching.1 "Ibmresearchlab".toList (by decide) (by decide)⟩

/-! ## C5 -/

theorem country_name_to_alpha2_ok (v : CVal) :
    ∃ r, country_name_to_alpha2 v = Except.ok r := by
  unfold country_name_to_alpha2
  cases v with
  | pynone => exact ⟨none, rfl⟩
  | other => exact ⟨none, rfl⟩
  | str s =>
    dsimp only
    rcases alistFind (pyStrip s) COUNTRY_CODE_FIXES with _ | fix
    · rcases pcNameToAlpha2 (pyStrip s) with _ | code
      · rcases pcNameToAlpha2 (stripPunct (pyStrip s)) with _ | code₂
        · exact ⟨none, rfl⟩
        · exact ⟨some code₂, rfl⟩
      · exact ⟨some code, rfl⟩
    · exact ⟨some fix, rfl⟩

theorem country_to_alpha2_ok (v : CVal) :
    ∃ r, country_to_alpha2 v = Except.ok r := by
  unfold country_to_alpha2
  rcases normalize_alpha2 v with _ | code
  · exact country_name_to_alpha2_ok v
  · dsimp only
    by_cases hc : code = []
    · rw [if_pos hc]
      exact country_name_to_alpha2_ok v
    · rw [if_neg hc]
      exact ⟨some code, rfl⟩

theorem alpha2_to_continent_ok (a : Option PStr) :
    ∃ r, alpha2_to_continent a = Except.ok r := by
  unfold alpha2_to_continent
  rcases a with _ | s
  · exact ⟨none, rfl⟩
  · dsimp only
    by_cases hs : s = []
    · rw [if_pos hs]; exact ⟨none, rfl⟩
    · rw [if_neg hs]
      rcases pcAlpha2ToContinent s with _ | cont
      · exact ⟨none, rfl⟩
      · exact ⟨some cont, rfl⟩

/-- C5: country resolution is total and never lets an exception escape —
for every input value (null, non-string, or arbitrary string) both
`country_to_alpha2` and `country_to_continent` produce an `ok` result (a
code/continent or `None`), never an uncaught error that would abort the
processing of sibling papers. -/
theorem c5_resolution_total (v : CVal) :
    (∃ r, country_to_alpha2 v = Except.ok r) ∧
    (∃ c, country_to_continent v = Except.ok c) := by
  obtain ⟨r, hr⟩ := country_to_alpha2_ok v
  obtain ⟨c, hc⟩ := alpha2_to_continent_ok r
  refine ⟨⟨r, hr⟩, ⟨c, ?_⟩⟩
  unfold country_to_continent
  rw [hr]
  simpa using hc

/-! ## C6 -/

theorem alpha_not_space {c : Char} (h : pyIsAlphaChar c = true) :
    pyIsSpaceChar c = false := by
  rw [Bool.eq_false_iff]
  intro hs
  simp only [pyIsSpaceChar, Bool.or_eq_true, decide_eq_true_eq] at hs
  rcases hs with ((((rfl | rfl) | rfl) | rfl) | rfl) | rfl <;>
    exact absurd h (by decide)

theorem pyUpperChar_idem (c : Char) :
    pyUpperChar (pyUpperChar c) = pyUpperChar c := by
  rcases hf : alistFind c letterTable with _ | u
  · have hc : pyUpperChar c = c := by rw [pyUpperChar, hf]
    rw [hc, hc]
  · have hm := alistFind_mem hf
    have hc : pyUpperChar c = u := by rw [pyUpperChar, hf]
    rw [hc]
    fin_cases hm <;> decide

theorem pyUpperChar_alpha {c : Char} (h : pyIsAlphaChar c = true) :
    pyIsAlphaChar (pyUpperChar c) = true := by
  rcases hf : alistFind c letterTable with _ | u
  · rw [pyUpperChar, hf]; exact h
  · have hm := alistFind_mem hf
    have hc : pyUpperChar c = u := by rw [pyUpperChar, hf]
    rw [hc]
    fin_cases hm <;> decide

theorem pyStrip_two_alpha {c₁ c₂ : Char} (h₁ : pyIsAlphaChar c₁ = true)
    (h₂ : pyIsAlphaChar c₂ = true) : pyStrip [c₁, c₂] = [c₁, c₂] := by
  have s₁ := alpha_not_space h₁
  have s₂ := alpha_not_space h₂
  simp [pyStrip, List.dropWhile, s₁, s₂]

theorem fixes_key_two {k v : PStr} (h : (k, v) ∈ COUNTRY_CODE_FIXES)
    (hl : k.length = 2) : k = "UK".toList := by
  fin_cases h <;> first | rfl | exact absurd hl (by decide)

theorem fixes_find_two_alpha {c₁ c₂ : Char}
    (hUK : pyUpper [c₁, c₂] ≠ "UK".toList) :
    alistFind [c₁, c₂] COUNTRY_CODE_FIXES = none := by
  rcases hf : alistFind [c₁, c₂] COUNTRY_CODE_FIXES with _ | v
  · rfl
  · exfalso
    have hk := fixes_key_two (alistFind_mem hf) (by simp)
    have e₁ : c₁ = 'U' := by
      have := congrArg (fun l => l.headI) hk
      simpa using this
    have e₂ : c₂ = 'K' := by
      have := congrArg (fun l => l.tail.headI) hk
      simpa using this
    subst e₁; subst e₂
    exact hUK (by decide)

theorem normalize_two_alpha {c₁ c₂ : Char} (h₁ : pyIsAlphaChar c₁ = true)
    (h₂ : pyIsAlphaChar c₂ = true)
    (hUK : pyUpper [c₁, c₂] ≠ "UK".toList) :
    normalize_alpha2 (CVal.str [c₁, c₂]) = some (pyUpper [c₁, c₂]) := by
  unfold normalize_alpha2
  dsimp only
  rw [pyStrip_two_alpha h₁ h₂, fixes_find_two_alpha hUK]
  simp [h₁, h₂]

theorem resolve_two_alpha {c₁ c₂ : Char} (h₁ : pyIsAlphaChar c₁ = true)
    (h₂ : pyIsAlphaChar c₂ = true)
    (hUK : pyUpper [c₁, c₂] ≠ "UK".toList) :
    country_to_alpha2 (CVal.str [c₁, c₂]) =
      Except.ok (some (pyUpper [c₁, c₂])) := by
  unfold country_to_alpha2
  rw [normalize_two_alpha h₁ h₂ hUK]
  dsimp only
  rw [if_neg (by simp [pyUpper])]

/-- C6 counterexample: `UK` is a 2-letter alphabetic string, yet
`country_to_alpha2` returns `GB` (the alias table is consulted before the
2-letter rule), not the upper-cased input; consequently idempotence fails
at `uk`, whose first resolution `UK` resolves further to `GB`. -/
theorem c6_counterexample :
    pyIsAlphaChar 'U' = true ∧ pyIsAlphaChar 'K' = true ∧
    country_to_alpha2 (CVal.str "UK".toList) =
      Except.ok (some "GB".toList) ∧
    "GB".toList ≠ "UK".toList ∧
    country_to_alpha2 (CVal.str "uk".toList) =
      Except.ok (some "UK".toList) := by decide

/-- C6 amended: for every 2-letter alphabetic string whose upper-casing is
not the alias key `UK`, `country_to_alpha2` returns the upper-cased input
unchanged, and resolving that result again is a fixed point. -/
theorem c6_two_alpha_upper_idempotent (c₁ c₂ : Char)
    (h₁ : pyIsAlphaChar c₁ = true) (h₂ : pyIsAlphaChar c₂ = true)
    (hUK : pyUpper [c₁, c₂] ≠ "UK".toList) :
    country_to_alpha2 (CVal.str [c₁, c₂]) =
      Except.ok (some (pyUpper [c₁, c₂])) ∧
    country_to_alpha2 (CVal.str (pyUpper [c₁, c₂])) =
      Except.ok (some (pyUpper [c₁, c₂])) := by
  refine ⟨resolve_two_alpha h₁ h₂ hUK, ?_⟩
  have hup : pyUpper [c₁, c₂] = [pyUpperChar c₁, pyUpperChar c₂] := rfl
  have hidem : pyUpper [pyUpperChar c₁, pyUpperChar c₂] =
      pyUpper [c₁, c₂] := by
    simp [pyUpper, pyUpperChar_idem]
  rw [hup]
  rw [resolve_two_alpha (pyUpperChar_alpha h₁) (pyUpperChar_alpha h₂)
    (by rw [hidem]; exact hUK)]
  rw [hidem, hup]

/-- C6 witness: the lower-case code `us` resolves to `US`, and `US`
resolves to itself. -/
theorem c6_witness :
    pyIsAlphaChar 'u' = true ∧ pyIsAlphaChar 's' = true ∧
    pyUpper ['u', 's'] ≠ "UK".toList ∧
    country_to_alpha2 (CVal.str "us".toList) =
      Except.ok (some "US".toList) ∧
    country_to_alpha2 (CVal.str "US".toList) =
      Except.ok (some "US".toList) :=
  ⟨by decide, by decide, by decide,
   (c6_two_alpha_upper_idempotent 'u' 's' (by decide) (by decide)
     (by decide)).1,
   (c6_two_alpha_upper_idempotent 'u' 's' (by decide) (by decide)
     (by decide)).2⟩

/-! ## C7 -/

theorem filterMap_all_some {α β : Type} {f : α → Option β} {b : β} :
    ∀ {l : List α}, (∀ x ∈ l, f x = some b) →
      l.filterMap f = l.map (fun _ => b) := by
  intro l
  induction l with
  | nil => intro _; rfl
  | cons x xs ih =>
    intro h
    rw [List.filterMap_cons, h x (List.mem_cons_self x xs), List.map_cons,
      ih (fun y hy => h y (List.mem_cons_of_mem x hy))]

theorem dedupSeen_all_seen {α : Type} [DecidableEq α] :
    ∀ (l seen : List α), (∀ x ∈ l, x ∈ seen) → dedupSeen seen l = [] := by
  intro l
  induction l with
  | nil => intro _ _; rfl
  | cons x xs ih =>
    intro seen h
    rw [dedupSeen, if_pos (h x (List.mem_cons_self x xs))]
    exact ih seen (fun y hy => h y (List.mem_cons_of_mem x hy))

theorem dedupFirst_all_eq {α : Type} [DecidableEq α] {a : α} :
    ∀ {l : List α}, l ≠ [] → (∀ x ∈ l, x = a) → dedupFirst l = [a] := by
  intro l
  cases l with
  | nil => intro h; exact absurd rfl h
  | cons x xs =>
    intro _ h
    have hx : x = a := h x (List.mem_cons_self x xs)
    subst hx
    rw [dedupFirst, dedupSeen, if_neg (List.not_mem_nil x),
      dedupSeen_all_seen xs [x]
        (fun y hy => by rw [h y (List.mem_cons_of_mem x hy),
          h x (List.mem_cons_self x xs)]; exact List.mem_cons_self _ _)]

/-- C7: an author whose institutions all carry the same country value casts
exactly one ballot for that country's bucket (not one per institution):
the author's vote list is the singleton vote of that country, and on the
one-author list the whole vote yields that single bucket with one ballot,
`no_inst_data = 0`, and `unknown_country` reflecting just that one
resolution. -/
theorem c7_author_votes_once (ad : AuthorDict) (cv : CVal)
    (hne : ad.institutions ≠ [])
    (hall : ∀ i ∈ ad.institutions, instCountry i = some cv) :
    authorVotes (AuthorEntry.dict ad) = [resolveVote cv] ∧
    get_predominant_continent [AuthorEntry.dict ad] =
      ([(resolveVote cv).1], 0, if (resolveVote cv).2 then 1 else 0) := by
  have huniq : uniqueCountries ad.institutions = [cv] := by
    unfold uniqueCountries
    rw [filterMap_all_some hall]
    refine dedupFirst_all_eq ?_ ?_
    · simpa using hne
    · intro x hx
      exact (List.mem_map.mp hx).choose_spec.2.symm
  constructor
  · simp [authorVotes, hne, huniq]
  · rcases hbv : resolveVote cv with ⟨bucket, flag⟩
    simp only [get_predominant_continent, authorStep, List.foldl_cons,
      List.foldl_nil]
    rw [if_neg (by simp)]
    simp only [hne, if_false, huniq, List.foldl_cons, List.foldl_nil,
      voteStep, hbv, bump]
    cases flag <;> simp [dictValuesMax]

/-- C7 witness: one author with two same-country (US) institutions yields
the single ballot and result bucket `NA` with no unresolved countries. -/
theorem c7_witness :
    ((⟨[PyInst.dict ⟨some "Lab A".toList, some (CVal.str "US".toList)⟩,
        PyInst.dict ⟨some "Lab B".toList, some (CVal.str "US".toList)⟩]⟩ :
        AuthorDict).institutions ≠ []) ∧
    authorVotes (AuthorEntry.dict
      ⟨[PyInst.dict ⟨some "Lab A".toList, some (CVal.str "US".toList)⟩,
        PyInst.dict ⟨some "Lab B".toList, some (CVal.str "US".toList)⟩]⟩) =
      [("NA".toList, false)] ∧
    get_predominant_continent [AuthorEntry.dict
      ⟨[PyInst.dict ⟨some "Lab A".toList, some (CVal.str "US".toList)⟩,
        PyInst.dict ⟨some "Lab B".toList, some (CVal.str "US".toList)⟩]⟩] =
      (["NA".toList], 0, 0) := by
  have h := c7_author_votes_once
    ⟨[PyInst.dict ⟨some "Lab A".toList, some (CVal.str "US".toList)⟩,
      PyInst.dict ⟨some "Lab B".toList, some (CVal.str "US".toList)⟩]⟩
    (CVal.str "US".toList) (by decide) (by decide)
  refine ⟨by decide, ?_, ?_⟩
  · rw [h.1]; decide
  · rw [h.2]; decide

/-! ## C3 -/

theorem bump_keys (b : PStr) :
    ∀ m : List (PStr × Nat), (bump m b).map Prod.fst =
      if b ∈ m.map Prod.fst then m.map Prod.fst
      else m.map Prod.fst ++ [b] := by
  intro m
  induction m with
  | nil => simp [bump]
  | cons p rest ih =>
    obtain ⟨k, v⟩ := p
    by_cases hk : k = b
    · subst hk
      simp [bump]
    · have hnb : (b = k) = False := by
        simp only [eq_iff_iff, iff_false]
        exact fun h => hk h.symm
      by_cases hb : b ∈ rest.map Prod.fst <;>
        simp [bump, hk, ih, hb, List.mem_cons, hnb]

theorem bump_lookupNat (b k : PStr) :
    ∀ m : List (PStr × Nat),
      lookupNat k (bump m b) = lookupNat k m + (if k = b then 1 else 0) := by
  intro m
  induction m with
  | nil =>
    by_cases h : b = k
    · subst h; simp [bump, lookupNat]
    · have h' : ¬k = b := fun hx => h hx.symm
      simp [bump, lookupNat, h, h']
  | cons p rest ih =>
    obtain ⟨k₀, v⟩ := p
    by_cases h₀ : k₀ = b
    · subst h₀
      simp only [bump, if_pos rfl]
      by_cases hk : k₀ = k
      · subst hk; simp [lookupNat]
      · have hk' : ¬k = k₀ := fun hx => hk hx.symm
        simp [lookupNat, hk, hk']
    · simp only [bump, if_neg h₀]
      by_cases hk : k₀ = k
      · subst hk
        simp [lookupNat, fun hx : k₀ = b => h₀ hx]
      · simp [lookupNat, hk, ih]

theorem dedupSeen_congr {α : Type} [DecidableEq α] :
    ∀ (l s₁ s₂ : List α), (∀ x, x ∈ s₁ ↔ x ∈ s₂) →
      dedupSeen s₁ l = dedupSeen s₂ l
  | [], _, _, _ => rfl
  | a :: as, s₁, s₂, h => by
    by_cases ha : a ∈ s₁
    · rw [dedupSeen, if_pos ha, dedupSeen, if_pos ((h a).mp ha)]
      exact dedupSeen_congr as s₁ s₂ h
    · rw [dedupSeen, if_neg ha, dedupSeen,
        if_neg (fun hx => ha ((h a).mpr hx))]
      exact congrArg (a :: ·)
        (dedupSeen_congr as (a :: s₁) (a :: s₂)
          (fun x => by simp [List.mem_cons, h x]))

theorem foldl_bump_keys :
    ∀ (seq : List PStr) (m : List (PStr × Nat)),
      (seq.foldl bump m).map Prod.fst =
        m.map Prod.fst ++ dedupSeen (m.map Prod.fst) seq := by
  intro seq
  induction seq with
  | nil => intro m; simp [dedupSeen]
  | cons b rest ih =>
    intro m
    rw [List.foldl_cons, ih (bump m b), bump_keys]
    by_cases hb : b ∈ m.map Prod.fst
    · rw [if_pos hb, dedupSeen, if_pos hb]
    · rw [if_neg hb, dedupSeen, if_neg hb,
        dedupSeen_congr rest (m.map Prod.fst ++ [b]) (b :: m.map Prod.fst)
          (fun x => by simp [List.mem_append, List.mem_cons, or_comm]),
        List.append_assoc]
      rfl

theorem foldl_bump_lookupNat (k : PStr) :
    ∀ (seq : List PStr) (m : List (PStr × Nat)),
      lookupNat k (seq.foldl bump m) = lookupNat k m + seq.count k := by
  intro seq
  induction seq with
  | nil => intro m; simp
  | cons b rest ih =>
    intro m
    rw [List.foldl_cons, ih (bump m b), bump_lookupNat, List.count_cons]
    have : (b == k) = decide (b = k) := by
      by_cases h : b = k <;> simp [h]
    by_cases h : b = k
    · subst h; simp; omega
    · have h' : ¬k = b := fun hx => h hx.symm
      simp [h, h']

theorem bump_nodup {m : List (PStr × Nat)} (h : (m.map Prod.fst).Nodup)
    (b : PStr) : ((bump m b).map Prod.fst).Nodup := by
  rw [bump_keys]
  by_cases hb : b ∈ m.map Prod.fst
  · rw [if_pos hb]; exact h
  · rw [if_neg hb]
    simp [List.nodup_append, h, hb]

theorem foldl_bump_nodup :
    ∀ (seq : List PStr) (m : List (PStr × Nat)),
      (m.map Prod.fst).Nodup → ((seq.foldl bump m).map Prod.fst).Nodup := by
  intro seq
  induction seq with
  | nil => intro m h; exact h
  | cons b rest ih =>
    intro m h
    rw [List.foldl_cons]
    exact ih (bump m b) (bump_nodup h b)

theorem lookupNat_not_mem {k : PStr} :
    ∀ {m : List (PStr × Nat)}, k ∉ m.map Prod.fst → lookupNat k m = 0 := by
  intro m
  induction m with
  | nil => intro _; rfl
  | cons p rest ih =>
    obtain ⟨k₀, v⟩ := p
    intro h
    simp only [List.map_cons, List.mem_cons] at h
    push_neg at h
    rw [lookupNat, if_neg (fun hx => h.1 hx.symm)]
    exact ih h.2

theorem values_eq_map_lookup :
    ∀ m : List (PStr × Nat), (m.map Prod.fst).Nodup →
      m.map Prod.snd = (m.map Prod.fst).map (fun k => lookupNat k m) := by
  intro m
  induction m with
  | nil => intro _; rfl
  | cons p rest ih =>
    obtain ⟨k₀, v₀⟩ := p
    intro h
    simp only [List.map_cons, List.nodup_cons] at h
    have hk₀ : lookupNat k₀ ((k₀, v₀) :: rest) = v₀ := by simp [lookupNat]
    simp only [List.map_cons, hk₀]
    congr 1
    rw [ih h.2]
    refine List.map_congr_left ?_
    intro k hk
    have hne : ¬k₀ = k := fun hx => h.1 (hx ▸ hk)
    rw [show lookupNat k ((k₀, v₀) :: rest) = lookupNat k rest from
      by simp [lookupNat, hne]]

theorem filter_snd_map_fst (n : Nat) :
    ∀ m : List (PStr × Nat), (m.map Prod.fst).Nodup →
      (m.filter (fun p => p.2 = n)).map Prod.fst =
        (m.map Prod.fst).filter (fun k => lookupNat k m = n) := by
  intro m
  induction m with
  | nil => intro _; rfl
  | cons p rest ih =>
    obtain ⟨k₀, v₀⟩ := p
    intro h
    simp only [List.map_cons, List.nodup_cons] at h
    have htail : (rest.map Prod.fst).filter
        (fun k => lookupNat k ((k₀, v₀) :: rest) = n) =
        (rest.map Prod.fst).filter (fun k => lookupNat k rest = n) := by
      refine List.filter_congr ?_
      intro k hk
      have hne : ¬k₀ = k := fun hx => h.1 (hx ▸ hk)
      rw [lookupNat, if_neg hne]
    have hk₀ : lookupNat k₀ ((k₀, v₀) :: rest) = v₀ := by simp [lookupNat]
    rw [List.map_cons, List.filter_cons, List.filter_cons, hk₀]
    by_cases hv : v₀ = n
    · have hd : decide (v₀ = n) = true := by simp [hv]
      rw [if_pos hd, if_pos hd, List.map_cons, htail, ih h.2]
    · have hd : ¬(decide (v₀ = n) = true) := by simp [hv]
      rw [if_neg hd, if_neg hd, htail, ih h.2]

theorem foldl_voteStep_counts :
    ∀ (uniq : List CVal) (st : PredState),
      (uniq.foldl voteStep st).counts =
        ((uniq.map resolveVote).map Prod.fst).foldl bump st.counts := by
  intro uniq
  induction uniq with
  | nil => intro st; rfl
  | cons cv rest ih =>
    intro st
    rw [List.foldl_cons, ih, List.map_cons, List.map_cons, List.foldl_cons]
    rfl

theorem authorStep_counts (a : AuthorEntry) (st : PredState) :
    (authorStep st a).counts =
      ((authorVotes a).map Prod.fst).foldl bump st.counts := by
  cases a with
  | other => rfl
  | dict ad =>
    by_cases hi : ad.institutions = []
    · simp [authorStep, authorVotes, hi]
    · simp only [authorStep, authorVotes, hi, if_false]
      exact foldl_voteStep_counts _ st

theorem foldl_authorStep_counts :
    ∀ (authors : List AuthorEntry) (st : PredState),
      (authors.foldl authorStep st).counts =
        (voteBuckets authors).foldl bump st.counts := by
  intro authors
  induction authors with
  | nil => intro st; rfl
  | cons a rest ih =>
    intro st
    rw [List.foldl_cons, ih]
    unfold voteBuckets
    rw [List.flatMap_cons, List.map_append, List.foldl_append,
      authorStep_counts]

/-- C3: the predominant-continent result of `get_predominant_continent` is
exactly the specified one — every continent bucket whose ballot count
equals the maximum is returned (ties preserved, never broken), listed in
the order in which each bucket received its first ballot. -/
theorem c3_predominant_ties_first_vote_order (authors : List AuthorEntry) :
    (get_predominant_continent authors).1 =
      predominantSpec (voteBuckets authors) := by
  by_cases hA : authors = []
  · subst hA; rfl
  · have hc : (authors.foldl authorStep ⟨[], 0, 0⟩).counts =
        (voteBuckets authors).foldl bump [] :=
      foldl_authorStep_counts authors ⟨[], 0, 0⟩
    set seq := voteBuckets authors with hseq
    have hkeys : ((seq.foldl bump []).map Prod.fst) = dedupFirst seq := by
      rw [foldl_bump_keys seq []]
      rfl
    have hnodup : ((seq.foldl bump []).map Prod.fst).Nodup :=
      foldl_bump_nodup seq [] List.nodup_nil
    have hlook : ∀ k, lookupNat k (seq.foldl bump []) = seq.count k := by
      intro k
      rw [foldl_bump_lookupNat k seq []]
      simp [lookupNat]
    unfold get_predominant_continent
    rw [if_neg hA]
    simp only [hc]
    by_cases hm : (seq.foldl bump []) = []
    · rw [if_pos hm]
      have hd : dedupFirst seq = [] := by rw [← hkeys, hm]; rfl
      simp [predominantSpec, hd]
    · rw [if_neg hm]
      simp only
      have hmax : dictValuesMax (seq.foldl bump []) = maxVoteCount seq := by
        unfold dictValuesMax maxVoteCount
        rw [values_eq_map_lookup _ hnodup, hkeys]
        congr 1
        exact List.map_congr_left (fun k _ => hlook k)
      rw [filter_snd_map_fst _ _ hnodup, hkeys]
      unfold predominantSpec
      refine List.filter_congr ?_
      intro k _
      rw [hlook k, hmax]

/-- C8 witness: a conference with the single year `2019` holding no papers
yields the zero row for that year. -/
theorem c8_witness :
    (("2019".toList, ([] : List Paper)) ∈
      [("2019".toList, ([] : List Paper))]) ∧
    (⟨"c".toList, "2019".toList, 0, 0, 0⟩ : BTRow) ∈
      conferenceRows "c".toList [("2019".toList, [])] :=
  ⟨List.mem_cons_self _ _,
   (c8_row_per_year_key "c".toList [("2019".toList, [])]).2
     "2019".toList (List.mem_cons_self _ _)⟩

end ConfPlots
